import Mathlib

/-!
Shallow embedding of the base-conversion utilities in
`src/bin-dec-hex-conv.py` (functions `bintodec`, `dectobin`, `dectohex`,
`hextodec`, `bintohex`, `hextobin`), together with theorems settling the
specification's claims about them.

Python dynamic values are modelled by `PyVal` (a string, an integer, or
some other non-string object); Python exceptions by `PyErr`.  Functions
that can raise return `Except PyErr _`.  `print` side effects are ignored:
they are not part of any claim.
-/

/-- A Python runtime value as far as these converters inspect it:
a string, an `int`, or any other (non-string) object. -/
inductive PyVal where
  | str (s : String)
  | int (n : Int)
  | obj
deriving DecidableEq, Repr

/-- A Python exception as raised by this program: `TypeError msg`
(the only exception class the source raises explicitly) or `IndexError`
(raised by an out-of-range list subscript such as `value[1]`). -/
inductive PyErr where
  | typeError (msg : String)
  | indexError
deriving DecidableEq, Repr

deriving instance DecidableEq for Except

/-- `''.join` over a list of strings, as used by `dectohex`. -/
def strJoin : List String → String
  | [] => ""
  | s :: rest => s ++ strJoin rest

/-- The summation loop of `bintodec` (lines 21-24): the input characters in
reverse order are scanned with an ever-incrementing `power`; a character
adds `int('1') * 2**power` exactly when it equals `'1'`, and every other
character (including non-binary ones) adds nothing. -/
def binSumAux : List Char → Nat → Nat
  | [], _ => 0
  | c :: cs, power => (if c = '1' then 1 * 2 ^ power else 0) + binSumAux cs (power + 1)

/-- `bintodec` (lines 10-27): on a string it reverses the characters and
accumulates powers of two at the positions holding `'1'`; on a non-string
it raises `TypeError`. -/
def bintodec : PyVal → Except PyErr Nat
  | .str s => .ok (binSumAux s.data.reverse 0)
  | _ => .error (.typeError "You must use string values for this converter.")

/-- The character for one bit, as produced by CPython's `bin`. -/
def bitChar (d : Nat) : Char :=
  if d = 1 then '1' else '0'

/-- Base-2 digits of `n`, least-significant first, computed with explicit
fuel so the kernel can evaluate it; `[0]` when `n = 0`.  Proved below to
agree with Mathlib's `Nat.digits 2` on positive inputs once the fuel is
sufficient. -/
def binDigitsLoop : Nat → Nat → List Nat
  | 0, _ => []
  | fuel + 1, n => if 2 ≤ n then n % 2 :: binDigitsLoop fuel (n / 2) else [n % 2]

/-- CPython's builtin `bin` on a non-negative integer: `"0b"` followed by
the base-2 digits, most-significant first, a single `"0"` for zero. -/
def pyBin (y : Nat) : String :=
  "0b" ++ String.mk ((binDigitsLoop (y + 1) y).reverse.map bitChar)

/-- `dectobin` (lines 30-34): `int(x)` is the identity on the integers the
claims quantify over, so the function is CPython's `bin`. -/
def dectobin (x : Nat) : String :=
  pyBin x

/-- The division loop of `dectohex` (lines 43-52), run with fuel
`range(x)`: while the remaining value is at least 16 it appends `x % 16`
and divides; otherwise it appends the final digit, appends the `"0x"`
marker and breaks.  The returned list is the Python `value` list
(least-significant digit first) with the `"0x"` marker factored out into
the boolean (`true` iff the loop reached its `break`). -/
def dectohexLoop : Nat → Nat → List Nat × Bool
  | 0, _ => ([], false)
  | fuel + 1, x =>
    if 16 ≤ x then
      let r := dectohexLoop fuel (x / 16)
      (x % 16 :: r.1, r.2)
    else
      ([x % 16], true)

/-- The digit-to-string mapping of `dectohex` (lines 55-72): remainders
10-15 are replaced by the letters `'A'`-`'F'` and everything is passed
through `str`. -/
def hexDigitStr (n : Nat) : String :=
  if n = 10 then "A"
  else if n = 11 then "B"
  else if n = 12 then "C"
  else if n = 13 then "D"
  else if n = 14 then "E"
  else if n = 15 then "F"
  else Nat.repr n

/-- `dectohex` (lines 38-74): for `x > 9` run the division loop, reverse
the collected list (so the `"0x"` marker, appended last, comes first),
map digits to characters and join; for `x ≤ 9` return `str(x)` with no
marker. -/
def dectohex (x : Nat) : String :=
  if 9 < x then
    let r := dectohexLoop x x
    strJoin ((if r.2 then ["0x"] else []) ++ (r.1.reverse.map hexDigitStr))
  else
    strJoin [Nat.repr x]

/-- The digit mapping of `hextodec`'s `j`-loop together with its `k`-loop
`try`/`except` (lines 87-106): characters `'0'`-`'9'` and `'A'`-`'F'` map
to their values; any other character survives the `j`-loop as a string,
makes `int(value[k])` raise, and so is reported as `none`. -/
def hexCharVal? (c : Char) : Option Nat :=
  if c = '0' then some 0
  else if c = '1' then some 1
  else if c = '2' then some 2
  else if c = '3' then some 3
  else if c = '4' then some 4
  else if c = '5' then some 5
  else if c = '6' then some 6
  else if c = '7' then some 7
  else if c = '8' then some 8
  else if c = '9' then some 9
  else if c = 'A' then some 10
  else if c = 'B' then some 11
  else if c = 'C' then some 12
  else if c = 'D' then some 13
  else if c = 'E' then some 14
  else if c = 'F' then some 15
  else none

/-- The exception message of `hextodec`'s `except` branch (line 106). -/
def capMsg : String :=
  "All HEX characters, ie ABCDEF, must be capitalized in string values."

/-- Maps every character of the (prefix-stripped) hex string to its value;
the first unmappable character raises the capitalization `TypeError`,
exactly as `hextodec`'s `k`-loop does. -/
def mapHexChars : List Char → Except PyErr (List Nat)
  | [] => .ok []
  | c :: cs =>
    match hexCharVal? c with
    | some d => (mapHexChars cs).map (fun ds => d :: ds)
    | none => .error (.typeError capMsg)

/-- The accumulation of `hextodec`'s `k`- and `l`-loops (lines 102-108):
`value2 = sum over k of value[k] * 16^(len(value)-k-1)`, written
recursively (the head digit is weighted by 16 to the number of digits
after it). -/
def hexSumAux : List Nat → Nat
  | [] => 0
  | d :: ds => d * 16 ^ ds.length + hexSumAux ds

/-- `hextodec` (lines 77-111).  On a non-string: `TypeError`.  On a
string: the prefix test `value[0]=='0' and value[1]=='x' or
value[0]=='0' and value[1]=='X'` subscripts `value[0]` unconditionally
(IndexError on the empty string) and subscripts `value[1]` only when
`value[0]=='0'` (Python's `and` short-circuits, so a one-character string
raises IndexError exactly when that character is `'0'`); when the test
succeeds the first two characters are removed.  The remaining characters
are mapped to digit values and summed with positional weights 16^i. -/
def hextodec : PyVal → Except PyErr Nat
  | .str s =>
    match s.data with
    | [] => .error .indexError
    | [c] =>
      if c = '0' then .error .indexError
      else (mapHexChars [c]).map hexSumAux
    | c0 :: c1 :: rest =>
      let value :=
        if c0 = '0' ∧ (c1 = 'x' ∨ c1 = 'X') then rest else c0 :: c1 :: rest
      (mapHexChars value).map hexSumAux
  | _ => .error (.typeError "String values must be used for this HEX converter.")

/-- `bintohex` (lines 113-116): `dectohex` after `bintodec`. -/
def bintohex (x : PyVal) : Except PyErr String := do
  let y ← bintodec x
  return dectohex y

/-- `hextobin` (lines 118-121): `dectobin` after `hextodec`. -/
def hextobin (x : PyVal) : Except PyErr String := do
  let y ← hextodec x
  return dectobin y

/-- The canonical character for a hexadecimal digit value (uppercase). -/
def hexDigitChar (d : Nat) : Char :=
  if d = 0 then '0'
  else if d = 1 then '1'
  else if d = 2 then '2'
  else if d = 3 then '3'
  else if d = 4 then '4'
  else if d = 5 then '5'
  else if d = 6 then '6'
  else if d = 7 then '7'
  else if d = 8 then '8'
  else if d = 9 then '9'
  else if d = 10 then 'A'
  else if d = 11 then 'B'
  else if d = 12 then 'C'
  else if d = 13 then 'D'
  else if d = 14 then 'E'
  else 'F'

/-- The value of a binary string read most-significant character first:
each `'1'` contributes two to the power of the number of characters after
it.  Used to state what `dectobin`'s digit block denotes. -/
def binValMSB : List Char → Nat
  | [] => 0
  | c :: cs => (if c = '1' then 1 else 0) * 2 ^ cs.length + binValMSB cs

theorem hexDigitStr_singleton : ∀ d, d < 16 → hexDigitStr d = String.singleton (hexDigitChar d) := by
  decide

theorem hexCharVal?_hexDigitChar : ∀ d, d < 16 → hexCharVal? (hexDigitChar d) = some d := by
  decide

theorem strJoin_map_singleton (L : List Char) :
    strJoin (L.map String.singleton) = String.mk L := by
  induction L with
  | nil => rfl
  | cons c cs ih =>
    simp only [List.map_cons, strJoin, ih]
    apply String.ext
    simp [String.data_append, String.singleton]

theorem dectohexLoop_eq_digits :
    ∀ fuel x, 0 < x → x < 16 ^ fuel → dectohexLoop fuel x = (Nat.digits 16 x, true) := by
  intro fuel
  induction fuel with
  | zero => intro x hx hlt; simp at hlt; omega
  | succ fuel ih =>
    intro x hx hlt
    by_cases h16 : 16 ≤ x
    · have hdiv : 0 < x / 16 := Nat.div_pos h16 (by norm_num)
      have hdivlt : x / 16 < 16 ^ fuel := by
        rw [Nat.div_lt_iff_lt_mul (by norm_num)]
        calc x < 16 ^ (fuel + 1) := hlt
        _ = 16 ^ fuel * 16 := by ring
      simp only [dectohexLoop, if_pos h16, ih (x / 16) hdiv hdivlt]
      rw [Nat.digits_def' (by norm_num : (1:ℕ) < 16) hx]
    · simp only [dectohexLoop, if_neg h16]
      rw [Nat.digits_def' (by norm_num : (1:ℕ) < 16) hx]
      have : x / 16 = 0 := Nat.div_eq_of_lt (by omega)
      rw [this]
      simp

theorem dectohex_eq_canonical (x : Nat) (hx : 9 < x) :
    dectohex x = "0x" ++ String.mk ((Nat.digits 16 x).reverse.map hexDigitChar) := by
  have hxpos : 0 < x := by omega
  have hfuel : x < 16 ^ x := Nat.lt_pow_self (by norm_num) x
  have hloop := dectohexLoop_eq_digits x x hxpos hfuel
  have hlt : ∀ d ∈ (Nat.digits 16 x).reverse, d < 16 := by
    intro d hd
    exact Nat.digits_lt_base (by norm_num) (List.mem_reverse.mp hd)
  simp only [dectohex, if_pos hx, hloop]
  have hmaps : (Nat.digits 16 x).reverse.map hexDigitStr
      = ((Nat.digits 16 x).reverse.map hexDigitChar).map String.singleton := by
    rw [List.map_map]
    exact List.map_congr_left (fun d hd => hexDigitStr_singleton d (hlt d hd))
  rw [hmaps]
  simp only [strJoin, List.singleton_append, List.nil_append, if_true]
  congr 1
  exact strJoin_map_singleton ((Nat.digits 16 x).reverse.map hexDigitChar)

theorem binDigitsLoop_eq_digits :
    ∀ fuel n, 0 < n → n < 2 ^ fuel → binDigitsLoop fuel n = Nat.digits 2 n := by
  intro fuel
  induction fuel with
  | zero => intro n hn hlt; simp at hlt; omega
  | succ fuel ih =>
    intro n hn hlt
    by_cases h2 : 2 ≤ n
    · have hdiv : 0 < n / 2 := Nat.div_pos h2 (by norm_num)
      have hdivlt : n / 2 < 2 ^ fuel := by
        rw [Nat.div_lt_iff_lt_mul (by norm_num)]
        calc n < 2 ^ (fuel + 1) := hlt
        _ = 2 ^ fuel * 2 := by ring
      simp only [binDigitsLoop, if_pos h2, ih (n / 2) hdiv hdivlt]
      rw [Nat.digits_def' (by norm_num : (1:ℕ) < 2) hn]
    · simp only [binDigitsLoop, if_neg h2]
      rw [Nat.digits_def' (by norm_num : (1:ℕ) < 2) hn]
      have : n / 2 = 0 := Nat.div_eq_of_lt (by omega)
      rw [this]
      simp

theorem pyBin_pos (y : Nat) (hy : 0 < y) :
    pyBin y = "0b" ++ String.mk ((Nat.digits 2 y).reverse.map bitChar) := by
  have hfuel : y < 2 ^ (y + 1) :=
    lt_of_lt_of_le (Nat.lt_two_pow y) (Nat.pow_le_pow_right (by norm_num) (Nat.le_succ y))
  rw [pyBin, binDigitsLoop_eq_digits (y + 1) y hy hfuel]

theorem hexSumAux_eq_ofDigits (L : List Nat) :
    hexSumAux L = Nat.ofDigits 16 L.reverse := by
  induction L with
  | nil => rfl
  | cons d ds ih =>
    simp only [hexSumAux, List.reverse_cons, Nat.ofDigits_append, ih,
      Nat.ofDigits_singleton, List.length_reverse]
    ring

theorem mapHexChars_map_hexDigitChar (L : List Nat) (hL : ∀ d ∈ L, d < 16) :
    mapHexChars (L.map hexDigitChar) = .ok L := by
  induction L with
  | nil => rfl
  | cons d ds ih =>
    have hd : d < 16 := hL d (List.mem_cons_self d ds)
    simp only [List.map_cons, mapHexChars, hexCharVal?_hexDigitChar d hd,
      ih (fun e he => hL e (List.mem_cons_of_mem d he))]
    rfl

theorem mapHexChars_error (L : List Char) (h : ∃ c ∈ L, hexCharVal? c = none) :
    mapHexChars L = .error (.typeError capMsg) := by
  induction L with
  | nil => obtain ⟨c, hc, _⟩ := h; exact absurd hc (List.not_mem_nil c)
  | cons c cs ih =>
    obtain ⟨e, he, hval⟩ := h
    rcases List.mem_cons.mp he with rfl | hmem
    · simp [mapHexChars, hval]
    · cases hcv : hexCharVal? c with
      | none => simp [mapHexChars, hcv]
      | some d => simp [mapHexChars, hcv, ih ⟨e, hmem, hval⟩, Except.map]

/-- The sixteen characters the specification's HexString alphabet allows
(uppercase only). -/
def hexAlphabet : List Char :=
  ['0', '1', '2', '3', '4', '5', '6', '7', '8', '9', 'A', 'B', 'C', 'D', 'E', 'F']

/-- The six lowercase hexadecimal letters, which the contract rejects. -/
def lowerHexLetters : List Char :=
  ['a', 'b', 'c', 'd', 'e', 'f']

/-- The value of one uppercase hexadecimal digit character. -/
def hexDigitVal (c : Char) : Nat :=
  (hexCharVal? c).getD 0

theorem hexAlphabet_isSome : ∀ c ∈ hexAlphabet, (hexCharVal? c).isSome := by
  decide

theorem lowerHexLetters_none : ∀ c ∈ lowerHexLetters, hexCharVal? c = none := by
  decide

theorem mapHexChars_ok (L : List Char) (h : ∀ c ∈ L, (hexCharVal? c).isSome) :
    mapHexChars L = .ok (L.map hexDigitVal) := by
  induction L with
  | nil => rfl
  | cons c cs ih =>
    have hc := h c (List.mem_cons_self c cs)
    obtain ⟨d, hd⟩ := Option.isSome_iff_exists.mp hc
    simp only [mapHexChars, hd, ih (fun e he => h e (List.mem_cons_of_mem c he)),
      Except.map, List.map_cons]
    simp [hexDigitVal, hd]

theorem hexSumAux_spec (L : List Nat) :
    hexSumAux L = ∑ k ∈ Finset.range L.length, L.getD k 0 * 16 ^ (L.length - 1 - k) := by
  induction L with
  | nil => rfl
  | cons d ds ih =>
    rw [hexSumAux, ih, List.length_cons, Finset.sum_range_succ']
    simp only [List.getD_cons_succ, List.getD_cons_zero]
    rw [Nat.add_comm]
    congr 1
    exact Finset.sum_congr rfl fun k _ => by
      rw [show ds.length - 1 - k = ds.length + 1 - 1 - (k + 1) from by omega]

theorem binSumAux_append (L1 L2 : List Char) (p : Nat) :
    binSumAux (L1 ++ L2) p = binSumAux L1 p + binSumAux L2 (p + L1.length) := by
  induction L1 generalizing p with
  | nil => simp [binSumAux]
  | cons c cs ih =>
    show (if c = '1' then 1 * 2 ^ p else 0) + binSumAux (cs ++ L2) (p + 1)
        = ((if c = '1' then 1 * 2 ^ p else 0) + binSumAux cs (p + 1))
          + binSumAux L2 (p + (cs.length + 1))
    rw [ih (p + 1), show p + 1 + cs.length = p + (cs.length + 1) from by omega, Nat.add_assoc]

theorem binSumAux_map_bitChar (L : List Nat) (hL : ∀ d ∈ L, d < 2) (p : Nat) :
    binSumAux (L.map bitChar) p = 2 ^ p * Nat.ofDigits 2 L := by
  induction L generalizing p with
  | nil => simp [binSumAux]
  | cons d ds ih =>
    have hd : d < 2 := hL d (List.mem_cons_self d ds)
    have hrec := ih (fun e he => hL e (List.mem_cons_of_mem d he)) (p + 1)
    simp only [List.map_cons, binSumAux, hrec, Nat.ofDigits_cons]
    interval_cases d <;> simp [bitChar, pow_succ] <;> ring

theorem binSumAux_spec (L : List Char) (p : Nat) :
    binSumAux L p
      = ∑ k ∈ Finset.range L.length, if L.getD k ' ' = '1' then 2 ^ (p + k) else 0 := by
  induction L generalizing p with
  | nil => rfl
  | cons c cs ih =>
    rw [binSumAux, ih (p + 1), List.length_cons, Finset.sum_range_succ']
    simp only [List.getD_cons_succ, List.getD_cons_zero, Nat.add_zero, one_mul]
    rw [Nat.add_comm]
    congr 1
    exact Finset.sum_congr rfl fun k _ => by
      rw [show p + 1 + k = p + (k + 1) from by omega]

theorem binValMSB_append_singleton (L : List Char) (c : Char) :
    binValMSB (L ++ [c]) = 2 * binValMSB L + (if c = '1' then 1 else 0) := by
  induction L with
  | nil => simp [binValMSB]
  | cons e es ih =>
    show (if e = '1' then 1 else 0) * 2 ^ (es ++ [c]).length + binValMSB (es ++ [c])
        = 2 * ((if e = '1' then 1 else 0) * 2 ^ es.length + binValMSB es)
          + (if c = '1' then 1 else 0)
    rw [ih, List.length_append]
    simp only [List.length_cons, List.length_nil, Nat.zero_add]
    ring

theorem binValMSB_reverse_map (L : List Nat) (hL : ∀ d ∈ L, d < 2) :
    binValMSB ((L.map bitChar).reverse) = Nat.ofDigits 2 L := by
  induction L with
  | nil => rfl
  | cons d ds ih =>
    have hd : d < 2 := hL d (List.mem_cons_self d ds)
    simp only [List.map_cons, List.reverse_cons, binValMSB_append_singleton,
      ih (fun e he => hL e (List.mem_cons_of_mem d he)), Nat.ofDigits_cons]
    interval_cases d <;> simp [bitChar] <;> ring

theorem hextodec_cons2 (c0 c1 : Char) (rest : List Char) :
    hextodec (.str ⟨c0 :: c1 :: rest⟩)
      = (mapHexChars
          (if c0 = '0' ∧ (c1 = 'x' ∨ c1 = 'X') then rest else c0 :: c1 :: rest)).map
          hexSumAux := rfl

theorem append_0x_mk (M : List Char) : "0x" ++ String.mk M = String.mk ('0' :: 'x' :: M) := by
  apply String.ext
  simp [String.data_append]

theorem append_0b_mk (M : List Char) : "0b" ++ String.mk M = String.mk ('0' :: 'b' :: M) := by
  apply String.ext
  simp [String.data_append]

example : bintodec (.str "1111") = .ok 15 := by decide
example : dectohex 0 = "0" := by decide
example : dectohex 10 = "0xA" := by decide
example : dectohex 255 = "0xFF" := by decide
example : dectobin 10 = "0b1010" := by decide
example : hextodec (.str "0xFF") = .ok 255 := by decide
example : hextodec (.str "F") = .ok 15 := by decide
example : hextodec (.str "0") = .error .indexError := by decide
example : hextodec (.str "") = .error .indexError := by decide
example : hextodec (.str "ff") = .error (.typeError capMsg) := by decide

theorem bintodec_str (s : String) : bintodec (.str s) = .ok (binSumAux s.data.reverse 0) := rfl

theorem binSumAux_b0 (p : Nat) : binSumAux ['b', '0'] p = 0 := by
  show (if 'b' = '1' then 1 * 2 ^ p else 0)
      + ((if '0' = '1' then 1 * 2 ^ (p + 1) else 0) + 0) = 0
  rw [if_neg (by decide), if_neg (by decide)]

/-- C3: for every non-negative integer `n`, `bintodec (dectobin n) = n`:
the binary round trip restores `n` even though `dectobin`'s output starts
with the `"0b"` radix prefix (whose characters `'0'` and `'b'` contribute
nothing to `bintodec`'s sum). -/
theorem bin_roundtrip (n : Nat) : bintodec (.str (dectobin n)) = .ok n := by
  by_cases hn : 0 < n
  · rw [dectobin, pyBin_pos n hn, append_0b_mk, bintodec_str]
    have hdata : (String.mk ('0' :: 'b' :: ((Nat.digits 2 n).reverse.map bitChar))).data
        = '0' :: 'b' :: ((Nat.digits 2 n).reverse.map bitChar) := rfl
    rw [hdata]
    have hrev : ('0' :: 'b' :: ((Nat.digits 2 n).reverse.map bitChar)).reverse
        = ((Nat.digits 2 n).reverse.map bitChar).reverse ++ ['b', '0'] := by
      simp
    rw [hrev, binSumAux_append, binSumAux_b0, Nat.add_zero]
    rw [← List.reverse_map, List.reverse_reverse]
    rw [binSumAux_map_bitChar (Nat.digits 2 n)
      (fun d hd => Nat.digits_lt_base (by norm_num) hd) 0]
    rw [pow_zero, one_mul, Nat.ofDigits_digits]
  · have hn0 : n = 0 := by omega
    subst hn0
    decide

/-- C4: `dectohex` returns the bare decimal digit string for `x ≤ 9`
(so `dectohex 0 = "0"`) and `"0x"` followed by the uppercase hexadecimal
digits of `x`, most significant first, for `x > 9` (so
`dectohex 10 = "0xA"`). -/
theorem dectohex_characterization :
    (∀ x : Nat, dectohex x
      = if x ≤ 9 then Nat.repr x
        else "0x" ++ String.mk ((Nat.digits 16 x).reverse.map hexDigitChar)) ∧
    dectohex 0 = "0" ∧ dectohex 10 = "0xA" := by
  refine ⟨fun x => ?_, by decide, by decide⟩
  by_cases hx : x ≤ 9
  · rw [if_pos hx]
    simp only [dectohex, if_neg (by omega : ¬ 9 < x)]
    show Nat.repr x ++ strJoin [] = Nat.repr x
    apply String.ext
    simp [String.data_append, strJoin]
  · rw [if_neg hx]
    exact dectohex_eq_canonical x (by omega)

/-- C7: `bintodec` on any string returns (without error) the sum of
`2 ^ p` over the positions `p`, counted from the rightmost character,
whose character is `'1'`; all other characters contribute nothing; in
particular `bintodec "1111" = 15`. -/
theorem bintodec_characterization :
    (∀ s : String, bintodec (.str s)
      = .ok (∑ p ∈ Finset.range s.data.length,
          if s.data.reverse.getD p ' ' = '1' then 2 ^ p else 0)) ∧
    bintodec (.str "1111") = .ok 15 := by
  refine ⟨fun s => ?_, by decide⟩
  rw [bintodec_str, binSumAux_spec]
  simp [List.length_reverse]

/-- C8: both `bintodec` and `hextodec` raise their `TypeError` on every
non-string input, returning no value. -/
theorem nonstring_raises_typeerror (v : PyVal) (h : ∀ s, v ≠ .str s) :
    bintodec v = .error (.typeError "You must use string values for this converter.")
      ∧ hextodec v
        = .error (.typeError "String values must be used for this HEX converter.") := by
  cases v with
  | str s => exact absurd rfl (h s)
  | int n => exact ⟨rfl, rfl⟩
  | obj => exact ⟨rfl, rfl⟩

theorem nonstring_raises_typeerror_witness :
    bintodec (.int 1111) = .error (.typeError "You must use string values for this converter.")
      ∧ hextodec (.int 1111)
        = .error (.typeError "String values must be used for this HEX converter.") :=
  nonstring_raises_typeerror (.int 1111) (fun _ h => PyVal.noConfusion h)

/-- C9: `dectobin x` is `"0b"` followed by the binary digits of `x`,
most-significant bit first, with no leading zero when `x > 0`, and
`dectobin 0 = "0b0"`. -/
theorem dectobin_canonical :
    (∀ x : Nat,
      (dectobin x).data.take 2 = ['0', 'b'] ∧
      (∀ c ∈ (dectobin x).data.drop 2, c = '0' ∨ c = '1') ∧
      binValMSB ((dectobin x).data.drop 2) = x) ∧
    (∀ x : Nat, 0 < x → ((dectobin x).data.drop 2).head? ≠ some '0') ∧
    dectobin 0 = "0b0" := by
  have hdata : ∀ x : Nat, 0 < x →
      (dectobin x).data = '0' :: 'b' :: ((Nat.digits 2 x).reverse.map bitChar) := by
    intro x hx
    rw [dectobin, pyBin_pos x hx, append_0b_mk]
  refine ⟨fun x => ?_, fun x hx => ?_, by decide⟩
  · by_cases hx : 0 < x
    · rw [hdata x hx]
      refine ⟨rfl, ?_, ?_⟩
      · intro c hc
        simp only [List.drop_succ_cons, List.drop_zero] at hc
        obtain ⟨d, _, rfl⟩ := List.mem_map.mp hc
        by_cases hd : d = 1
        · right; simp [bitChar, hd]
        · left; simp [bitChar, hd]
      · simp only [List.drop_succ_cons, List.drop_zero]
        rw [← List.reverse_map, binValMSB_reverse_map (Nat.digits 2 x)
          (fun d hd => Nat.digits_lt_base (by norm_num) hd), Nat.ofDigits_digits]
    · have hx0 : x = 0 := by omega
      subst hx0
      exact ⟨by decide, by decide, by decide⟩
  · rw [hdata x hx]
    simp only [List.drop_succ_cons, List.drop_zero]
    have hne : Nat.digits 2 x ≠ [] := Nat.digits_ne_nil_iff_ne_zero.mpr (by omega)
    rw [List.head?_map, List.head?_reverse, List.getLast?_eq_getLast _ hne]
    have hlast1 : (Nat.digits 2 x).getLast hne = 1 := by
      have h2 : (Nat.digits 2 x).getLast hne < 2 :=
        Nat.digits_lt_base (by norm_num) (List.getLast_mem hne)
      have h0 : (Nat.digits 2 x).getLast hne ≠ 0 :=
        Nat.getLast_digit_ne_zero 2 (by omega)
      omega
    rw [hlast1]
    decide

theorem dectobin_canonical_witness :
    0 < 5 ∧ ((dectobin 5).data.drop 2).head? ≠ some '0' :=
  ⟨by decide, dectobin_canonical.2.1 5 (by decide)⟩

/-- C10: the composite conversions are exactly the compositions through
decimal: `bintohex = dectohex ∘ bintodec` and `hextobin = dectobin ∘
hextodec`, on every input value. -/
theorem composite_via_decimal (v : PyVal) :
    bintohex v = (bintodec v).map dectohex ∧ hextobin v = (hextodec v).map dectobin := by
  constructor
  · cases h : bintodec v <;>
      simp [bintohex, h, Except.map, bind, Except.bind, pure, Except.pure]
  · cases h : hextodec v <;>
      simp [hextobin, h, Except.map, bind, Except.bind, pure, Except.pure]

theorem mapHexChars_sum (L : List Char) (h : ∀ c ∈ L, c ∈ hexAlphabet) :
    (mapHexChars L).map hexSumAux
      = .ok (∑ k ∈ Finset.range L.length,
          hexDigitVal (L.getD k '0') * 16 ^ (L.length - 1 - k)) := by
  rw [mapHexChars_ok L (fun c hc => hexAlphabet_isSome c (h c hc))]
  show Except.ok (hexSumAux (L.map hexDigitVal)) = _
  rw [hexSumAux_spec]
  congr 1
  rw [List.length_map]
  refine Finset.sum_congr rfl fun k _ => ?_
  congr 1
  rw [show (0 : Nat) = hexDigitVal '0' from rfl, List.getD_map]

/-- C1 (amended): for every positive `n`, `hextodec (dectohex n) = n`;
the round trip fails only at `n = 0`, where `dectohex 0 = "0"` carries no
prefix and `hextodec`'s prefix check raises an IndexError
(see the counterexample theorem). -/
theorem hex_roundtrip_pos (n : Nat) (hn : 0 < n) :
    hextodec (.str (dectohex n)) = .ok n := by
  by_cases h9 : n ≤ 9
  · have hsmall : ∀ m : Nat, m < 10 → 0 < m → hextodec (.str (dectohex m)) = .ok m := by
      decide
    exact hsmall n (by omega) hn
  · rw [dectohex_eq_canonical n (by omega), append_0x_mk, hextodec_cons2,
      if_pos ⟨rfl, Or.inl rfl⟩,
      mapHexChars_map_hexDigitChar _
        (fun d hd => Nat.digits_lt_base (by norm_num) (List.mem_reverse.mp hd))]
    show Except.ok (hexSumAux (Nat.digits 16 n).reverse) = Except.ok n
    rw [hexSumAux_eq_ofDigits, List.reverse_reverse, Nat.ofDigits_digits]

theorem hex_roundtrip_pos_witness :
    0 < 255 ∧ hextodec (.str (dectohex 255)) = .ok 255 :=
  ⟨by norm_num, hex_roundtrip_pos 255 (by norm_num)⟩

/-- C1 counterexample: at `n = 0` the hex round trip does not return `0`:
`dectohex 0 = "0"` and `hextodec "0"` raises IndexError. -/
theorem hex_roundtrip_zero_fails :
    hextodec (.str (dectohex 0)) = .error .indexError := by decide

/-- C2 (amended): for uppercase-hex-digit strings, with or without a
`"0x"`/`"0X"` prefix stripped from exactly the first two characters,
`hextodec` returns `sum of digit_value[k] * 16^(length-1-k)` — provided
the bare digit string is not the single character `"0"` (and not empty),
which instead hits the prefix check's IndexError; and the example
invocation evaluates to `hextodec "0x55866AE76080" = 94035807527040`
(not 94563787644544 as the specification writes). -/
theorem hextodec_positional_sum :
    (∀ L : List Char, (∀ c ∈ L, c ∈ hexAlphabet) →
      hextodec (.str ⟨'0' :: 'x' :: L⟩)
        = .ok (∑ k ∈ Finset.range L.length,
            hexDigitVal (L.getD k '0') * 16 ^ (L.length - 1 - k))) ∧
    (∀ L : List Char, (∀ c ∈ L, c ∈ hexAlphabet) →
      hextodec (.str ⟨'0' :: 'X' :: L⟩)
        = .ok (∑ k ∈ Finset.range L.length,
            hexDigitVal (L.getD k '0') * 16 ^ (L.length - 1 - k))) ∧
    (∀ L : List Char, (∀ c ∈ L, c ∈ hexAlphabet) →
      (2 ≤ L.length ∨ ∃ c, L = [c] ∧ c ≠ '0') →
      hextodec (.str ⟨L⟩)
        = .ok (∑ k ∈ Finset.range L.length,
            hexDigitVal (L.getD k '0') * 16 ^ (L.length - 1 - k))) ∧
    hextodec (.str "0x55866AE76080") = .ok 94035807527040 := by
  refine ⟨fun L h => ?_, fun L h => ?_, fun L h hlen => ?_, by decide⟩
  · rw [hextodec_cons2, if_pos ⟨rfl, Or.inl rfl⟩, mapHexChars_sum L h]
  · rw [hextodec_cons2, if_pos ⟨rfl, Or.inr rfl⟩, mapHexChars_sum L h]
  · rcases hlen with h2 | ⟨c, rfl, hc0⟩
    · rcases L with _ | ⟨c0, _ | ⟨c1, rest⟩⟩
      · exact absurd h2 (by simp)
      · exact absurd h2 (by simp)
      · rw [hextodec_cons2, if_neg ?_, mapHexChars_sum _ h]
        rintro ⟨rfl, hc1⟩
        have hc1mem : c1 ∈ hexAlphabet := h c1 (by simp)
        rcases hc1 with rfl | rfl <;> revert hc1mem <;> decide
    · have hstep : hextodec (.str ⟨[c]⟩) = (mapHexChars [c]).map hexSumAux := by
        show (if c = '0' then Except.error PyErr.indexError
          else (mapHexChars [c]).map hexSumAux) = _
        rw [if_neg hc0]
      rw [hstep, mapHexChars_sum [c] h]

theorem hextodec_positional_sum_witness :
    hextodec (.str ⟨'0' :: 'x' :: ['F', 'F']⟩)
      = .ok (∑ k ∈ Finset.range (['F', 'F'] : List Char).length,
          hexDigitVal ((['F', 'F'] : List Char).getD k '0')
            * 16 ^ ((['F', 'F'] : List Char).length - 1 - k)) :=
  hextodec_positional_sum.1 ['F', 'F'] (by decide)

/-- C2 counterexample: the example value in the claim is wrong — the code
returns 94035807527040 for `"0x55866AE76080"`, not 94563787644544 — and
the bare digit string `"0"` raises IndexError instead of returning its
positional sum. -/
theorem hextodec_claim_example_false :
    hextodec (.str "0x55866AE76080") = .ok 94035807527040
      ∧ (94035807527040 : Nat) ≠ 94563787644544
      ∧ hextodec (.str "0") = .error .indexError :=
  ⟨by decide, by decide, by decide⟩

/-- C5: `hextodec` on any string containing a lowercase `a`-`f` digit
raises the capitalization error (the source surfaces it as `TypeError`
with the message of line 106; the specification labels this error kind
ValueKind) rather than silently converting; in particular
`hextodec "ff"` does not return 255. -/
theorem hextodec_lowercase_error :
    (∀ s : String, (∃ c ∈ s.data, c ∈ lowerHexLetters) →
      hextodec (.str s) = .error (.typeError capMsg)) ∧
    hextodec (.str "ff") ≠ .ok 255 := by
  constructor
  · intro s hs
    obtain ⟨data⟩ := s
    obtain ⟨c, hcmem, hclower⟩ := hs
    have hcnone : hexCharVal? c = none := lowerHexLetters_none c hclower
    rcases data with _ | ⟨c0, _ | ⟨c1, rest⟩⟩
    · exact absurd hcmem (List.not_mem_nil c)
    · have hc : c = c0 := List.mem_singleton.mp hcmem
      subst hc
      have hc0 : c ≠ '0' := fun h => absurd (h ▸ hclower) (by decide)
      show (if c = '0' then Except.error PyErr.indexError
        else (mapHexChars [c]).map hexSumAux) = _
      rw [if_neg hc0, mapHexChars_error [c] ⟨c, List.mem_singleton_self c, hcnone⟩]
      rfl
    · rw [hextodec_cons2]
      by_cases hpre : c0 = '0' ∧ (c1 = 'x' ∨ c1 = 'X')
      · rw [if_pos hpre]
        obtain ⟨rfl, hc1⟩ := hpre
        have hcrest : c ∈ rest := by
          rcases List.mem_cons.mp hcmem with rfl | hcm
          · exact absurd hclower (by decide)
          · rcases List.mem_cons.mp hcm with rfl | hcm2
            · rcases hc1 with rfl | rfl <;> exact absurd hclower (by decide)
            · exact hcm2
        rw [mapHexChars_error rest ⟨c, hcrest, hcnone⟩]
        rfl
      · rw [if_neg hpre, mapHexChars_error _ ⟨c, hcmem, hcnone⟩]
        rfl
  · decide

theorem hextodec_lowercase_error_witness :
    hextodec (.str "ff") = .error (.typeError capMsg) :=
  hextodec_lowercase_error.1 "ff" (by decide)

/-- C6 (amended): the prefix check raises IndexError on the empty string
(first-character access) and on `"0"` (second-character access, reached
because the first character is `'0'`), but a one-character string whose
character is not `'0'` short-circuits the check and raises no IndexError
(it proceeds to digit conversion). -/
theorem hextodec_short_strings :
    hextodec (.str "") = .error .indexError ∧
    hextodec (.str "0") = .error .indexError ∧
    ∀ c : Char, c ≠ '0' → hextodec (.str (String.singleton c)) ≠ .error .indexError := by
  refine ⟨by decide, by decide, fun c hc => ?_⟩
  show (if c = '0' then Except.error PyErr.indexError
    else (mapHexChars [c]).map hexSumAux) ≠ _
  rw [if_neg hc]
  cases hval : hexCharVal? c with
  | none =>
    rw [mapHexChars_error [c] ⟨c, List.mem_singleton_self c, hval⟩]
    decide
  | some d =>
    rw [mapHexChars_ok [c] (fun e he => by
      rw [List.mem_singleton.mp he, hval]; rfl)]
    simp [Except.map]

theorem hextodec_short_strings_witness :
    ('F' : Char) ≠ '0' ∧ hextodec (.str (String.singleton 'F')) ≠ .error .indexError :=
  ⟨by decide, hextodec_short_strings.2.2 'F' (by decide)⟩

/-- C6 counterexample: `"F"` has length 1, yet `hextodec "F"` raises no
IndexError — it returns the digit's value 15, refuting the claim that
every string of length less than 2 raises an index error. -/
theorem hextodec_single_F : hextodec (.str "F") = .ok 15 := by decide
